import Mathlib

/-!
Verification development for the rule-based product-specification extractor
(`EnhancedSpecExtractor` in `populate_specs_v2.py`).

The Python code is shallowly embedded: strings are `List Char` (Python `len`
counts code points, matching `List.length`), regular expressions are an
explicit `Re` syntax tree mirroring each source pattern character by
character, and `re.search` / `re.findall` / `re.sub` are modelled by a
backtracking matcher (`mrun`) that returns all ways to match, in Python's
backtracking priority order (leftmost start; within one start, alternation
tries the left branch first and greedy repetition tries longer bodies
first).  Character predicates (`isalnum`, `isupper`, ...) are modelled on
the ASCII repertoire, which covers every character this catalog can feed
them.  Fallible Python operations (calling a method on a `None` group,
accessing a group index that does not exist) return `Except`; the
`try/except` in `extract_specs_from_text` is the only catch site, exactly
as in the source.
-/

/-- Characters of a Python string. -/
abbrev Chars := List Char

/-- A model of Python's ASCII whitespace set used by `str.strip`, `\s` and `str.split`. -/
def isSpaceC (c : Char) : Bool :=
  c == ' ' || c == '\t' || c == '\n' || c == '\r' || c == '\x0b' || c == '\x0c'

/-- A model of Python's `str.isalnum` on the ASCII repertoire. -/
def isAlnumC (c : Char) : Bool := c.isAlpha || c.isDigit

/-- A word character in the sense of the regex `\b` assertion: `[a-zA-Z0-9_]`. -/
def isWordC (c : Char) : Bool := isAlnumC c || c == '_'

/-- A model of Python's `str.isupper` on a single ASCII character. -/
def isUpperC (c : Char) : Bool := 'A' ≤ c && c ≤ 'Z'

/-- The apostrophe character (appears in the dimension pattern's quote class). -/
def apos : Char := Char.ofNat 39

/-- Python `str.strip()`: drop leading and trailing whitespace. -/
def pyStrip (cs : Chars) : Chars :=
  ((cs.dropWhile isSpaceC).reverse.dropWhile isSpaceC).reverse

/-- Python `str.rstrip(set)`: drop trailing characters belonging to `set`. -/
def pyRStrip (cs : Chars) (set : List Char) : Chars :=
  (cs.reverse.dropWhile (fun c => set.contains c)).reverse

/-- Auxiliary worker for `pySplit`, accumulating the current word reversed. -/
def pySplitAux : Chars → Chars → List Chars
  | [], acc => if acc.isEmpty then [] else [acc.reverse]
  | c :: rest, acc =>
    if isSpaceC c then
      if acc.isEmpty then pySplitAux rest [] else acc.reverse :: pySplitAux rest []
    else pySplitAux rest (c :: acc)

/-- Python `str.split()` with no argument: split on whitespace runs, dropping empties. -/
def pySplit (cs : Chars) : List Chars := pySplitAux cs []

/-- Python `str.lower()` (ASCII model, identity beyond `A`-`Z`, as in CPython for this repertoire). -/
def lowerCs (cs : Chars) : Chars := cs.map Char.toLower

/-- Python `str.upper()` on a string (ASCII model). -/
def pyUpper (s : String) : String := ⟨s.data.map Char.toUpper⟩

/-- Worker for `pyTitle`: `prev` records whether the previous character was alphabetic. -/
def pyTitleAux : Chars → Bool → Chars
  | [], _ => []
  | c :: rest, prev =>
    (if c.isAlpha then (if prev then c.toLower else c.toUpper) else c)
      :: pyTitleAux rest c.isAlpha

/-- Python `str.title()` (ASCII model): uppercase a letter that follows a non-letter,
lowercase a letter that follows a letter. -/
def pyTitle (cs : Chars) : String := ⟨pyTitleAux cs false⟩

/-- Python `str.isdigit` (ASCII model): non-empty and all decimal digits. -/
def pyIsDigit (cs : Chars) : Bool := !cs.isEmpty && cs.all Char.isDigit

/-- Character classes appearing in the source regexes. -/
inductive CCls where
  | digit
  | space
  | any
  | oneOf (cs : List Char)
  | noneOf (cs : List Char)
  | range (lo hi : Char)
  | union (a b : CCls)
deriving Repr

/-- Single-character comparison, optionally case-insensitive (`re.IGNORECASE`, ASCII fold). -/
def chEq (ci : Bool) (a b : Char) : Bool :=
  if ci then a.toLower == b.toLower else a == b

/-- Does character `c` belong to the class, under the case-insensitivity flag? -/
def ccMatch (ci : Bool) : CCls → Char → Bool
  | .digit, c => c.isDigit
  | .space, c => isSpaceC c
  | .any, c => c != '\n'
  | .oneOf cs, c => cs.any (fun d => chEq ci d c)
  | .noneOf cs, c => !(cs.any (fun d => chEq ci d c))
  | .range lo hi, c => (lo ≤ c && c ≤ hi) || (ci && lo ≤ c.toLower && c.toLower ≤ hi)
  | .union a b, c => ccMatch ci a c || ccMatch ci b c

/-- Syntax trees for the regular expressions of the Pattern Catalog.
`rep r lo hi lz` is the bounded/unbounded quantifier (`?`, `*`, `+`, `{m,n}`),
`lz` marking a lazy (non-greedy) quantifier; `nla` is negative lookahead `(?!...)`;
`wb` is `\b`; `eos` is `$`. -/
inductive Re where
  | eps
  | lit (c : Char)
  | cls (cc : CCls)
  | seq (a b : Re)
  | alt (a b : Re)
  | rep (r : Re) (lo : Nat) (hi : Option Nat) (lz : Bool)
  | group (idx : Nat) (r : Re)
  | nla (r : Re)
  | wb
  | eos
deriving Repr

/-- Matcher state: current position in the subject and the capture list,
most recent capture first, each entry `(groupIndex, startPos, endPos)`. -/
structure MSt where
  pos : Nat
  caps : List (Nat × Nat × Nat)
deriving Repr, DecidableEq

/-- The `\b` word-boundary test of Python `re` at a given position. -/
def wordBoundaryAt (s : Chars) (pos : Nat) : Bool :=
  let before := match pos with
    | 0 => false
    | p + 1 => match s.get? p with
      | some c => isWordC c
      | none => false
  let after := match s.get? pos with
    | some c => isWordC c
    | none => false
  before != after

/-- The `$` assertion of Python `re`: end of subject, or just before a final newline. -/
def eosAt (s : Chars) (pos : Nat) : Bool :=
  pos == s.length || (pos + 1 == s.length && s.get? pos == some '\n')

/-- The quantifier loop: all ways to repeat `body` between `lo` and `hi` times
(greedy unless `lz`), in Python's backtracking priority order.  An iteration that
consumes nothing ends the repetition (Python's empty-match rule; every quantified
body in this catalog consumes at least one character anyway).  `fuel` bounds the
number of iterations; the wrappers pass at least `s.length + 2`, which is
sufficient since each iteration consumes at least one character. -/
def repRun (body : MSt → List MSt) : Nat → Nat → Option Nat → Bool → MSt → List MSt
  | 0, _, _, _, _ => []
  | _ + 1, 0, some 0, _, st => [st]
  | f + 1, 0, hi, lz, st =>
    let cont := (body st).flatMap (fun st2 =>
      if st2.pos == st.pos then []
      else repRun body f 0 (hi.map (fun m => m - 1)) lz st2)
    if lz then st :: cont else cont ++ [st]
  | f + 1, lo + 1, hi, lz, st =>
    (body st).flatMap (fun st2 => repRun body f lo (hi.map (fun m => m - 1)) lz st2)

/-- Backtracking matcher: all ways to match `re` against `s` starting from state `st`,
in Python's backtracking priority order (alternation tries the left branch first,
greedy repetition tries longer bodies first). -/
def mrun (s : Chars) (ci : Bool) (fuel : Nat) : Re → MSt → List MSt
  | .eps, st => [st]
  | .lit c, st =>
    match s.get? st.pos with
    | some c2 => if chEq ci c c2 then [⟨st.pos + 1, st.caps⟩] else []
    | none => []
  | .cls cc, st =>
    match s.get? st.pos with
    | some c2 => if ccMatch ci cc c2 then [⟨st.pos + 1, st.caps⟩] else []
    | none => []
  | .seq a b, st => (mrun s ci fuel a st).flatMap (fun st2 => mrun s ci fuel b st2)
  | .alt a b, st => mrun s ci fuel a st ++ mrun s ci fuel b st
  | .rep r lo hi lz, st => repRun (fun st2 => mrun s ci fuel r st2) fuel lo hi lz st
  | .group i r, st =>
    (mrun s ci fuel r st).map (fun st2 => ⟨st2.pos, (i, st.pos, st2.pos) :: st2.caps⟩)
  | .nla r, st => if (mrun s ci fuel r st).isEmpty then [st] else []
  | .wb, st => if wordBoundaryAt s st.pos then [st] else []
  | .eos, st => if eosAt s st.pos then [st] else []

/-- Worker for `searchFrom`: the remaining number of start positions is structural. -/
def searchFromAux (s : Chars) (ci : Bool) (fuel : Nat) (re : Re) :
    Nat → Nat → Option (Nat × MSt)
  | 0, _ => none
  | g + 1, i =>
    if s.length < i then none
    else
      match (mrun s ci fuel re ⟨i, []⟩).head? with
      | some st => some (i, st)
      | none => searchFromAux s ci fuel re g (i + 1)

/-- Leftmost search from position `i`: try each start position in order,
returning the start and the highest-priority match state. -/
def searchFrom (s : Chars) (ci : Bool) (fuel : Nat) (re : Re) (i : Nat) :
    Option (Nat × MSt) :=
  searchFromAux s ci fuel re (s.length + 1 - i) i

/-- Quantifier-unrolling fuel used by all wrappers: enough for any pattern of the
catalog on subject `s`. -/
def reFuel (s : Chars) : Nat := s.length + 2

/-- Number of capture groups of a pattern (groups are numbered `1..n` consecutively
in every catalog pattern), modelling `len(match.groups())`. -/
def maxGroup : Re → Nat
  | .eps | .lit _ | .cls _ | .wb | .eos => 0
  | .seq a b => max (maxGroup a) (maxGroup b)
  | .alt a b => max (maxGroup a) (maxGroup b)
  | .rep r _ _ _ => maxGroup r
  | .group i r => max i (maxGroup r)
  | .nla r => maxGroup r

/-- A match object, as returned by `re.search` / consumed by the formatters. -/
structure RMatch where
  str : Chars
  ngroups : Nat
  start : Nat
  stop : Nat
  caps : List (Nat × Nat × Nat)
deriving Repr, DecidableEq

/-- Most recent capture recorded for group `i`. -/
def capLookup : List (Nat × Nat × Nat) → Nat → Option (Nat × Nat)
  | [], _ => none
  | (j, a, b) :: rest, i => if j == i then some (a, b) else capLookup rest i

/-- The slice `s[a:b]` of the subject, as a Lean `String`. -/
def sliceS (s : Chars) (a b : Nat) : String := ⟨(s.drop a).take (b - a)⟩

/-- Model of `re.search(pattern, s)` (with the case-insensitivity flag `ci`). -/
def research (ci : Bool) (re : Re) (s : Chars) : Option RMatch :=
  (searchFrom s ci (reFuel s) re 0).map
    (fun p => ⟨s, maxGroup re, p.1, p.2.pos, p.2.caps⟩)

/-- Model of `match.group(i)`: `Except` error when the group index does not exist
(Python `IndexError`), `none` when the group did not participate in the match. -/
def mgroup (m : RMatch) (i : Nat) : Except String (Option String) :=
  if i == 0 then .ok (some (sliceS m.str m.start m.stop))
  else if m.ngroups < i then .error "IndexError: no such group"
  else .ok ((capLookup m.caps i).map (fun p => sliceS m.str p.1 p.2))

/-- Model of `match.groups()`: the tuple of all groups `1..ngroups`. -/
def mgroups (m : RMatch) : List (Option String) :=
  (List.range m.ngroups).map
    (fun k => (capLookup m.caps (k + 1)).map (fun p => sliceS m.str p.1 p.2))

/-- Rendering of an optional group inside a Python f-string (`None` renders as "None"). -/
def pyRender (o : Option String) : String := o.getD "None"

/-- Worker for `refindall`: scan for non-overlapping matches left to right;
after an empty match, advance by one character (Python `re.findall` behaviour). -/
def refindAux (s : Chars) (ci : Bool) (re : Re) : Nat → Nat → List RMatch
  | 0, _ => []
  | f + 1, pos =>
    match searchFrom s ci (reFuel s) re pos with
    | none => []
    | some (st0, st) =>
      ⟨s, maxGroup re, st0, st.pos, st.caps⟩ ::
        refindAux s ci re f (if st.pos == st0 then st.pos + 1 else st.pos)

/-- Model of `re.findall(pattern, s)` at the match-object level. -/
def refindall (ci : Bool) (re : Re) (s : Chars) : List RMatch :=
  refindAux s ci re (s.length + 2) 0

/-- Model of `re.findall` for a single-group pattern: the list of group-1 strings
(Python yields the group content; a non-participating group yields the empty string). -/
def findallG1 (ci : Bool) (re : Re) (s : Chars) : List String :=
  (refindall ci re s).map (fun m =>
    match capLookup m.caps 1 with
    | some p => sliceS m.str p.1 p.2
    | none => "")

/-- Worker for `resubDel`: delete every non-overlapping match (replacement `''`). -/
def resubDelAux (s : Chars) (ci : Bool) (re : Re) : Nat → Nat → Chars
  | 0, pos => s.drop pos
  | f + 1, pos =>
    match searchFrom s ci (reFuel s) re pos with
    | none => s.drop pos
    | some (st0, st) =>
      let pre := (s.drop pos).take (st0 - pos)
      if st.pos == st0 then
        pre ++ (match s.get? st0 with
          | some c => c :: resubDelAux s ci re f (st0 + 1)
          | none => [])
      else pre ++ resubDelAux s ci re f st.pos

/-- Model of `re.sub(pattern, '', s)` used by `_clean_material`. -/
def resubDel (re : Re) (s : Chars) : Chars := resubDelAux s false re (s.length + 2) 0

/-- Concatenation of a list of regexes (transcription helper for juxtaposition). -/
def rcat : List Re → Re
  | [] => .eps
  | [r] => r
  | r :: rest => .seq r (rcat rest)

/-- Alternation of a list of regexes, left branch having priority (`a|b|c`). -/
def ralt : List Re → Re
  | [] => .eps
  | [r] => r
  | r :: rest => .alt r (ralt rest)

/-- A literal string inside a regex. -/
def rlit (s : String) : Re := rcat (s.data.map Re.lit)

/-- The `*` quantifier (greedy). -/
def rstar (r : Re) : Re := .rep r 0 none false

/-- The `+` quantifier (greedy). -/
def rplus (r : Re) : Re := .rep r 1 none false

/-- The `?` quantifier (greedy). -/
def ropt (r : Re) : Re := .rep r 0 (some 1) false

/-- The `\s` class. -/
def rsp : Re := .cls .space

/-- The `\d` class. -/
def rd : Re := .cls .digit

/-- The class `[xX×]` separating dimension components. -/
def rx : Re := .cls (.oneOf ['x', 'X', '×'])

/-- The class `["\']` of quote marks in the dimension pattern. -/
def rquote : Re := .cls (.oneOf ['"', apos])

/-- The subpattern `\d+\.?\d*` for a decimal number. -/
def numRe : Re := rcat [rplus rd, ropt (.lit '.'), rstar rd]

/-- The subpattern `\d+` for an integer. -/
def intRe : Re := rplus rd

/-- Dimensions rule 1:
`(\d+\.?\d*)\s*["\']?\s*[xX×]\s*(\d+\.?\d*)\s*["\']?\s*[xX×]\s*(\d+\.?\d*)\s*["\']?\s*(inches?|in|cm|mm|")?`. -/
def dim1Re : Re := rcat
  [ .group 1 numRe, rstar rsp, ropt rquote, rstar rsp, rx, rstar rsp,
    .group 2 numRe, rstar rsp, ropt rquote, rstar rsp, rx, rstar rsp,
    .group 3 numRe, rstar rsp, ropt rquote, rstar rsp,
    ropt (.group 4 (ralt
      [ rcat [rlit "inche", ropt (.lit 's')], rlit "in", rlit "cm", rlit "mm",
        rlit "\"" ])) ]

/-- Dimensions rule 2:
`(?:dimensions?|size):?\s*(\d+\.?\d*)\s*[xX×]\s*(\d+\.?\d*)\s*(?:[xX×]\s*(\d+\.?\d*))?`. -/
def dim2Re : Re := rcat
  [ ralt [rcat [rlit "dimension", ropt (.lit 's')], rlit "size"], ropt (.lit ':'),
    rstar rsp, .group 1 numRe, rstar rsp, rx, rstar rsp, .group 2 numRe, rstar rsp,
    ropt (rcat [rx, rstar rsp, .group 3 numRe]) ]

/-- The unit alternation `lbs?|pounds?|kg|kilograms?` of the Weight rule. -/
def weightUnitsRe : Re := ralt
  [ rcat [rlit "lb", ropt (.lit 's')], rcat [rlit "pound", ropt (.lit 's')],
    rlit "kg", rcat [rlit "kilogram", ropt (.lit 's')] ]

/-- Weight rule: `(\d+\.?\d*)\s*(lbs?|pounds?|kg|kilograms?)\b`. -/
def weightRe : Re := rcat
  [ .group 1 numRe, rstar rsp, .group 2 weightUnitsRe, .wb ]

/-- Capacity rule 1:
`(?:capacity:?\s*)?(\d+\.?\d*)\s*(?:-\s*)?(cup|cups|oz|ounces?|ml|milliliters?|liter|liters?|l|gallon|gallons?|qt|quarts?)\b`. -/
def cap1Re : Re := rcat
  [ ropt (rcat [rlit "capacity", ropt (.lit ':'), rstar rsp]),
    .group 1 numRe, rstar rsp, ropt (rcat [.lit '-', rstar rsp]),
    .group 2 (ralt
      [ rlit "cup", rlit "cups", rlit "oz", rcat [rlit "ounce", ropt (.lit 's')],
        rlit "ml", rcat [rlit "milliliter", ropt (.lit 's')], rlit "liter",
        rcat [rlit "liter", ropt (.lit 's')], rlit "l", rlit "gallon",
        rcat [rlit "gallon", ropt (.lit 's')], rlit "qt",
        rcat [rlit "quart", ropt (.lit 's')] ]),
    .wb ]

/-- Capacity rule 2: `(?:up to|upto)\s+(\d+)\s+(cup|cups)\b`. -/
def cap2Re : Re := rcat
  [ ralt [rlit "up to", rlit "upto"], rplus rsp, .group 1 intRe, rplus rsp,
    .group 2 (ralt [rlit "cup", rlit "cups"]), .wb ]

/-- The Power rule without its negative lookahead: `(\d+)\s*(watt|watts|w)\b`. -/
def powerCore : Re := rcat
  [ .group 1 intRe, rstar rsp,
    .group 2 (ralt [rlit "watt", rlit "watts", rlit "w"]), .wb ]

/-- The lookahead body `\s*max` of the Power rule. -/
def powerLA : Re := rcat [rstar rsp, rlit "max"]

/-- Power rule: `(\d+)\s*(watt|watts|w)\b(?!\s*max)`. -/
def powerRe : Re := .seq powerCore (.nla powerLA)

/-- Voltage rule: `(\d+)\s*(volt|volts|v)\b`. -/
def voltRe : Re := rcat
  [ .group 1 intRe, rstar rsp,
    .group 2 (ralt [rlit "volt", rlit "volts", rlit "v"]), .wb ]

/-- The class `[a-z\s]` of the Material and Color capture bodies. -/
def azsp : CCls := .union (.range 'a' 'z') .space

/-- Material rule 1:
`(?:made (?:of|from)|material:?)\s+([a-z\s]{3,30}?)(?:\.|,|$|\s+(?:with|and|for))`. -/
def mat1Re : Re := rcat
  [ ralt
      [ rcat [rlit "made ", ralt [rlit "of", rlit "from"]],
        rcat [rlit "material", ropt (.lit ':')] ],
    rplus rsp, .group 1 (.rep (.cls azsp) 3 (some 30) true),
    ralt
      [ .lit '.', .lit ',', .eos,
        rcat [rplus rsp, ralt [rlit "with", rlit "and", rlit "for"]] ] ]

/-- Material rule 2:
`\b(stainless\s+steel|carbon\s+steel|aluminum|plastic|glass|ceramic|wood|silicone|rubber)\b`. -/
def mat2Re : Re := rcat
  [ .wb,
    .group 1 (ralt
      [ rcat [rlit "stainless", rplus rsp, rlit "steel"],
        rcat [rlit "carbon", rplus rsp, rlit "steel"],
        rlit "aluminum", rlit "plastic", rlit "glass", rlit "ceramic",
        rlit "wood", rlit "silicone", rlit "rubber" ]),
    .wb ]

/-- Color rule: `(?:color|colour):?\s+([a-z\s]{3,20}?)(?:\.|,|$)`. -/
def colorRe : Re := rcat
  [ ralt [rlit "color", rlit "colour"], ropt (.lit ':'), rplus rsp,
    .group 1 (.rep (.cls azsp) 3 (some 20) true),
    ralt [.lit '.', .lit ',', .eos] ]

/-- Temperature Range rule:
`(?:up to|max(?:imum)?)\s+(\d+)\s*(?:degrees?|°)?\s*(f|fahrenheit|c|celsius)?`. -/
def tempRe : Re := rcat
  [ ralt [rlit "up to", rcat [rlit "max", ropt (rlit "imum")]], rplus rsp,
    .group 1 intRe, rstar rsp,
    ropt (ralt [rcat [rlit "degree", ropt (.lit 's')], rlit "°"]), rstar rsp,
    ropt (.group 2 (ralt [rlit "f", rlit "fahrenheit", rlit "c", rlit "celsius"])) ]

/-- Settings rule: `(\d+)\s+(?:precision\s+)?(?:speed|heat|temperature)\s+settings?`. -/
def settingsRe : Re := rcat
  [ .group 1 intRe, rplus rsp, ropt (rcat [rlit "precision", rplus rsp]),
    ralt [rlit "speed", rlit "heat", rlit "temperature"], rplus rsp,
    rlit "setting", ropt (.lit 's') ]

/-- Pieces rule: `(\d+)\s*(?:-\s*)?piece`. -/
def piecesRe : Re := rcat
  [ .group 1 intRe, rstar rsp, ropt (rcat [.lit '-', rstar rsp]), rlit "piece" ]

/-- The `re.sub` pattern of `_clean_material`: `\b(with|and|for|the|a|an)\b.*`. -/
def cleanMaterialRe : Re := rcat
  [ .wb,
    .group 1 (ralt [rlit "with", rlit "and", rlit "for", rlit "the", rlit "a", rlit "an"]),
    .wb, rstar (.cls .any) ]

/-- Bullet-feature pattern: `[•●○▪▫]\s*([^•●○▪▫\n]{10,80})`. -/
def bulletRe : Re := rcat
  [ .cls (.oneOf ['•', '●', '○', '▪', '▫']), rstar rsp,
    .group 1 (.rep (.cls (.noneOf ['•', '●', '○', '▪', '▫', '\n'])) 10 (some 80) false) ]

/-- Keyword feature pattern: `featuring:?\s+([^.]{15,80})\.`. -/
def featRe : Re := rcat
  [ rlit "featuring", ropt (.lit ':'), rplus rsp,
    .group 1 (.rep (.cls (.noneOf ['.'])) 15 (some 80) false), .lit '.' ]

/-- Keyword feature pattern: `includes:?\s+([^.]{15,80})\.`. -/
def inclRe : Re := rcat
  [ rlit "includes", ropt (.lit ':'), rplus rsp,
    .group 1 (.rep (.cls (.noneOf ['.'])) 15 (some 80) false), .lit '.' ]

/-- Keyword feature pattern: `comes with:?\s+([^.]{15,80})\.`. -/
def comesRe : Re := rcat
  [ rlit "comes with", ropt (.lit ':'), rplus rsp,
    .group 1 (.rep (.cls (.noneOf ['.'])) 15 (some 80) false), .lit '.' ]

/-- The Validator `_is_valid_value(value, max_length=100)`: non-empty after trimming,
length at most `max_length`, special-character ratio at most 0.3 (the float test
`count/len > 0.3` is equivalent to `10*count > 3*len` for `len ≤ 100`), and at most
5 commas and 5 periods. -/
def is_valid_value (v : String) (maxLength : Nat) : Bool :=
  if v.data.isEmpty || (pyStrip v.data).isEmpty then false
  else
    let value := pyStrip v.data
    if maxLength < value.length then false
    else if 3 * value.length < 10 * value.countP (fun c => !isAlnumC c && c != ' ') then
      false
    else if 5 < value.count ',' || 5 < value.count '.' then false
    else true

/-- The formatter `lambda m: f"{m.group(1)} {m.group(2)}"` shared by the Weight,
Capacity, Power and Voltage rules. -/
def fmtGroups12 (m : RMatch) : Except String String := do
  let g1 ← mgroup m 1
  let g2 ← mgroup m 2
  pure (pyRender g1 ++ " " ++ pyRender g2)

/-- The formatter `_format_dimensions`. -/
def format_dimensions (m : RMatch) : Except String String := do
  let gs := mgroups m
  let nums := gs.filterMap (fun g =>
    match g with
    | some v =>
      if !v.data.isEmpty && pyIsDigit (v.data.filter (fun c => c != '.')) then some v
      else none
    | none => none)
  match nums with
  | a :: b :: c :: _ => do
    let unitO ← if 4 ≤ gs.length then mgroup m 4 else pure none
    let unitRaw :=
      match unitO with
      | some u => if u.data.isEmpty then "inches" else u
      | none => "inches"
    let unit := if unitRaw == "\"" then "inches" else unitRaw
    pure (a ++ " x " ++ b ++ " x " ++ c ++ " " ++ unit)
  | [a, b] => pure (a ++ " x " ++ b)
  | _ => pure ""

/-- The helper `_clean_material`: strip, lowercase, cut a trailing filler clause,
accept only if the remaining length is strictly between 3 and 30, then title-case. -/
def clean_material (material : String) : String :=
  let m1 := lowerCs (pyStrip material.data)
  let m2 := pyStrip (resubDel cleanMaterialRe m1)
  if 3 < m2.length && m2.length < 30 then pyTitle m2 else ""

/-- The formatter `lambda m: self._clean_material(m.group(1))` of Material rule 1
(calling a method on a `None` group would raise, hence the `Except` error). -/
def format_material1 (m : RMatch) : Except String String := do
  let g1 ← mgroup m 1
  match g1 with
  | some v => pure (clean_material v)
  | none => .error "AttributeError: NoneType"

/-- The formatter `lambda m: m.group(1).title()` of Material rule 2. -/
def format_material2 (m : RMatch) : Except String String := do
  let g1 ← mgroup m 1
  match g1 with
  | some v => pure (pyTitle v.data)
  | none => .error "AttributeError: NoneType"

/-- The Color formatter `lambda m: m.group(1).strip().title()`. -/
def format_color (m : RMatch) : Except String String := do
  let g1 ← mgroup m 1
  match g1 with
  | some v => pure (pyTitle (pyStrip v.data))
  | none => .error "AttributeError: NoneType"

/-- The Temperature Range formatter
`lambda m: f"{m.group(1)}° {m.group(2).upper() if m.group(2) else 'F'}"`. -/
def format_temperature (m : RMatch) : Except String String := do
  let g1 ← mgroup m 1
  let g2 ← mgroup m 2
  let unit :=
    match g2 with
    | some u => if u.data.isEmpty then "F" else pyUpper u
    | none => "F"
  pure (pyRender g1 ++ "° " ++ unit)

/-- The Settings formatter `lambda m: f"{m.group(1)} settings"`. -/
def format_settings (m : RMatch) : Except String String := do
  let g1 ← mgroup m 1
  pure (pyRender g1 ++ " settings")

/-- The Pieces formatter `lambda m: f"{m.group(1)} pieces"`. -/
def format_pieces (m : RMatch) : Except String String := do
  let g1 ← mgroup m 1
  pure (pyRender g1 ++ " pieces")

/-- One extraction rule: a pattern and its formatter. -/
abbrev SpecRule := Re × (RMatch → Except String String)

/-- The ordered Pattern Catalog `self.patterns` of `EnhancedSpecExtractor.__init__`. -/
def patterns : List (String × List SpecRule) :=
  [ ("Dimensions", [(dim1Re, format_dimensions), (dim2Re, format_dimensions)]),
    ("Weight", [(weightRe, fmtGroups12)]),
    ("Capacity", [(cap1Re, fmtGroups12), (cap2Re, fmtGroups12)]),
    ("Power", [(powerRe, fmtGroups12)]),
    ("Voltage", [(voltRe, fmtGroups12)]),
    ("Material", [(mat1Re, format_material1), (mat2Re, format_material2)]),
    ("Color", [(colorRe, format_color)]),
    ("Temperature Range", [(tempRe, format_temperature)]),
    ("Settings", [(settingsRe, format_settings)]),
    ("Pieces", [(piecesRe, format_pieces)]) ]

/-- An ordered label-to-value mapping with unique labels (a Python dict of strings). -/
abbrev SpecSet := List (String × String)

/-- Does the spec set already bind `k`? (`k in all_specs`). -/
def hasKey : SpecSet → String → Bool
  | [], _ => false
  | e :: rest, k => e.1 == k || hasKey rest k

/-- Python dict assignment `s[k] = v`: overwrite in place (keeping the original
insertion position) when the key exists, append otherwise. -/
def dictSet : SpecSet → String → String → SpecSet
  | [], k, v => [(k, v)]
  | e :: rest, k, v => if e.1 == k then (k, v) :: rest else e :: dictSet rest k v

/-- Dict lookup `s.get(k)` as an `Option`. -/
def lookupSpec : SpecSet → String → Option String
  | [], _ => none
  | e :: rest, k => if e.1 == k then some e.2 else lookupSpec rest k

/-- The inner rule loop of `extract_specs_from_text`: first rule whose pattern
matches and whose formatter yields a non-empty, Validator-accepted value; a
formatter error is caught (`try/except`) and the next rule is tried. -/
def firstRuleValue (rules : List SpecRule) (tl : Chars) : Option String :=
  match rules with
  | [] => none
  | (pat, fmt) :: rest =>
    match research true pat tl with
    | none => firstRuleValue rest tl
    | some m =>
      match fmt m with
      | .error _ => firstRuleValue rest tl
      | .ok v =>
        if v != "" && is_valid_value v 100 then some v
        else firstRuleValue rest tl

/-- The label loop of `extract_specs_from_text`: stop as soon as the spec count
has reached `maxSpecs` (checked at the top of each iteration, as in the source). -/
def extractLoop (entries : List (String × List SpecRule)) (tl : Chars)
    (maxSpecs : Nat) (acc : SpecSet) : SpecSet :=
  match entries with
  | [] => acc
  | (label, rules) :: rest =>
    if maxSpecs ≤ acc.length then acc
    else
      match firstRuleValue rules tl with
      | some v => extractLoop rest tl maxSpecs (dictSet acc label v)
      | none => extractLoop rest tl maxSpecs acc

/-- `EnhancedSpecExtractor.extract_specs_from_text(text, max_specs)`: the patterns
run over `text.lower()` with `re.IGNORECASE`. -/
def extract_specs_from_text (text : String) (max_specs : Nat) : SpecSet :=
  extractLoop patterns (lowerCs text.data) max_specs []

/-- The bullet pass of `extract_key_features`: the first `max_features` bullet
segments, each stripped and trimmed of trailing `.`/`,`, kept when its length is
strictly between 10 and 80 and the Validator accepts it. -/
def bulletFeatures (text : String) (max_features : Nat) : List (String × String) :=
  ((findallG1 false bulletRe text.data).take max_features).filterMap (fun b =>
    let f := pyRStrip (pyStrip b.data) ['.', ',']
    if 10 < f.length && f.length < 80 && is_valid_value ⟨f⟩ 100 then
      some ("Feature", (⟨f⟩ : String))
    else none)

/-- One keyword pattern of the `extract_key_features` fallback: append the clauses
of `pr.1` (label `pr.2`), sliced to the count still missing when this pattern's
loop starts, each stripped, trimmed of a trailing comma, length-checked and
Validator-checked. -/
def kwStep (text : String) (max_features : Nat) (acc : List (String × String))
    (pr : Re × String) : List (String × String) :=
  acc ++ ((findallG1 true pr.1 text.data).take (max_features - acc.length)).filterMap
    (fun t =>
      let f := pyRStrip (pyStrip t.data) [',']
      if 15 < f.length && f.length < 80 && is_valid_value ⟨f⟩ 100 then
        some (pr.2, (⟨f⟩ : String))
      else none)

/-- The keyword fallback of `extract_key_features`: "featuring:", "includes:",
"comes with:" clauses in order. -/
def keywordFeatures (text : String) (max_features : Nat) : List (String × String) :=
  [(featRe, "Feature"), (inclRe, "Included"), (comesRe, "Included")].foldl
    (kwStep text max_features) []

/-- `EnhancedSpecExtractor.extract_key_features(text, max_features)`. -/
def extract_key_features (text : String) (max_features : Nat) : List (String × String) :=
  let features := bulletFeatures text max_features
  if !features.isEmpty then features
  else keywordFeatures text max_features

/-- `EnhancedSpecExtractor.extract_brand(title, vendor)`: prefer a vendor whose
trimmed length is strictly between 2 and 30; otherwise the first title token when
it starts with an uppercase letter and has length strictly between 2 and 30. -/
def extract_brand (title vendor : Option String) : Option String :=
  let fromTitle : Option String :=
    match title with
    | none => none
    | some t =>
      match pySplit t.data with
      | [] => none
      | [] :: _ => none
      | (c :: wrest) :: _ =>
        if isUpperC c && 2 < (c :: wrest).length && (c :: wrest).length < 30 then
          some ⟨c :: wrest⟩
        else none
  match vendor with
  | none => fromTitle
  | some v0 =>
    let b := pyStrip v0.data
    if 2 < b.length && b.length < 30 then some ⟨b⟩ else fromTitle

/-- State of the tag scanner of `clean_html` (inside or outside a markup tag). -/
def stripTags : Chars → Bool → Chars
  | [], _ => []
  | c :: rest, inTag =>
    if inTag then stripTags rest (c != '>')
    else if c == '<' then stripTags rest true
    else c :: stripTags rest false

/-- `EnhancedSpecExtractor.clean_html`: `None` becomes the empty string; otherwise
markup is removed and all whitespace runs collapse to single spaces with trimmed
ends (the composition of `BeautifulSoup.get_text(separator=' ', strip=True)` with
`' '.join(text.split())`). -/
def clean_html (html : Option String) : String :=
  match html with
  | none => ""
  | some t => ⟨List.intercalate [' '] (pySplit (stripTags t.data false))⟩

/-- The input record: the five text fields `process_row` reads from the row.
`none` models an absent / NaN cell. -/
structure ProductContext where
  title : Option String
  bodyHtml : Option String
  category : Option String
  vendor : Option String
  materialHint : Option String

/-- Merge step 1: structured specs from the cleaned description, capped at 5. -/
def descPass (ctx : ProductContext) : SpecSet :=
  match ctx.bodyHtml with
  | some _ => extract_specs_from_text (clean_html ctx.bodyHtml) 5
  | none => []

/-- Merge step 2's source: specs from the cleaned title, capped at 2. -/
def titlePass (ctx : ProductContext) : SpecSet :=
  match ctx.title with
  | some _ => extract_specs_from_text (clean_html ctx.title) 2
  | none => []

/-- Adding a title-pass entry only when its label is not already present. -/
def addIfNew (s : SpecSet) (e : String × String) : SpecSet :=
  if hasKey s e.1 then s else s ++ [(e.1, e.2)]

/-- Merge step 3 of `process_row`: add the resolved brand under "Brand" when one
was found (a non-empty string) and the label is not already present. -/
def brandStep (ctx : ProductContext) (s2 : SpecSet) : SpecSet :=
  match extract_brand ctx.title ctx.vendor with
  | some b => if b != "" && !hasKey s2 "Brand" then dictSet s2 "Brand" b else s2
  | none => s2

/-- Merge step 4 of `process_row`: add the stripped Type cell as "Category" when
non-empty with length strictly between 3 and 50. -/
def categoryStep (ctx : ProductContext) (s3 : SpecSet) : SpecSet :=
  match ctx.category with
  | some c0 =>
    let p := pyStrip c0.data
    if !p.isEmpty && 3 < p.length && p.length < 50 then dictSet s3 "Category" ⟨p⟩
    else s3
  | none => s3

/-- Merge step 5 of `process_row`: add the stripped material metafield as
"Material" when that label is absent and the length is strictly between 3 and 30. -/
def materialStep (ctx : ProductContext) (s4 : SpecSet) : SpecSet :=
  match ctx.materialHint with
  | some m0 =>
    let mt := pyStrip m0.data
    if !hasKey s4 "Material" && 3 < mt.length && mt.length < 30 then
      dictSet s4 "Material" ⟨mt⟩
    else s4
  | none => s4

/-- Merge steps 1-5 of `process_row`: description pass, title pass (new labels
only), Brand, Category, and the Material metafield. -/
def preFeatureSpecs (ctx : ProductContext) : SpecSet :=
  materialStep ctx (categoryStep ctx (brandStep ctx
    ((titlePass ctx).foldl addIfNew (descPass ctx))))

/-- The spec set built by `EnhancedSpecExtractor.process_row` (the dict
`all_specs` just before serialization): steps 1-5, then 1-2 key features only
when fewer than 4 specs were found and a description is present. -/
def process_row_specs (ctx : ProductContext) : SpecSet :=
  if (preFeatureSpecs ctx).length < 4 then
    match ctx.bodyHtml with
    | some _ =>
      (extract_key_features (clean_html ctx.bodyHtml)
          (min 2 (5 - (preFeatureSpecs ctx).length))).foldl
        (fun a e => dictSet a e.1 e.2) (preFeatureSpecs ctx)
    | none => preFeatureSpecs ctx
  else preFeatureSpecs ctx

/-- JSON string escaping for `format_specs_for_shopify` (quote and backslash;
control characters do not occur in catalog values). -/
def jsonEscape (s : String) : String :=
  ⟨s.data.flatMap (fun c =>
    if c == '"' then ['\\', '"'] else if c == '\\' then ['\\', '\\'] else [c])⟩

/-- `format_specs_for_shopify`: the empty string for an empty spec set, otherwise
the JSON array of `"Label: Value"` strings. -/
def format_specs_for_shopify (specs : SpecSet) : String :=
  if specs.isEmpty then ""
  else
    "[" ++ String.intercalate ", "
      (specs.map (fun e => "\"" ++ jsonEscape (e.1 ++ ": " ++ e.2) ++ "\"")) ++ "]"

/-- `EnhancedSpecExtractor.process_row`: the serialized spec list for one row. -/
def process_row (ctx : ProductContext) : String :=
  format_specs_for_shopify (process_row_specs ctx)

/-- Syntactic absence of capture groups in a pattern. -/
def groupFree : Re → Bool
  | .eps | .lit _ | .cls _ | .wb | .eos => true
  | .seq a b => groupFree a && groupFree b
  | .alt a b => groupFree a && groupFree b
  | .rep r _ _ _ => groupFree r
  | .group _ _ => false
  | .nla r => groupFree r

/-- Does every match of the Power core in the lowercased text continue with the
lookahead body `\s*max`?  This is the formal reading of "every
`<integer> <watt(s)|w>` occurrence is immediately followed by the word max". -/
def powerAllMax (t : String) : Bool :=
  (List.range ((lowerCs t.data).length + 1)).all (fun i =>
    (mrun (lowerCs t.data) true (reFuel (lowerCs t.data)) powerCore ⟨i, []⟩).all
      (fun st =>
        !(mrun (lowerCs t.data) true (reFuel (lowerCs t.data)) powerLA st).isEmpty))

/-- A probe text containing a bullet glyph whose only bullet segment fails the
Validator, followed by a "featuring:" clause. -/
def bulletProbe : String :=
  "• !!!!!!!!!!!!\nfeaturing: a removable nonstick plate for easy cleaning."

/-- A key is absent exactly when lookup fails. -/
theorem hasKey_eq_false_iff (s : SpecSet) (k : String) :
    hasKey s k = false ↔ lookupSpec s k = none := by
  induction s with
  | nil => simp [hasKey, lookupSpec]
  | cons e rest ih =>
    by_cases h : e.1 == k <;> simp [hasKey, lookupSpec, h, ih]

/-- Membership after a dict assignment. -/
theorem mem_dictSet {s : SpecSet} {k v k0 v0 : String}
    (h : (k, v) ∈ dictSet s k0 v0) : (k, v) ∈ s ∨ (k = k0 ∧ v = v0) := by
  induction s with
  | nil =>
    simp only [dictSet, List.mem_singleton, Prod.mk.injEq] at h
    exact Or.inr h
  | cons e rest ih =>
    simp only [dictSet] at h
    by_cases he : e.1 == k0
    · simp only [he, if_true, List.mem_cons, Prod.mk.injEq] at h
      rcases h with h | h
      · exact Or.inr h
      · exact Or.inl (List.mem_cons_of_mem e h)
    · simp only [he, if_false] at h
      cases h with
      | head => exact Or.inl (List.mem_cons_self _ _)
      | tail _ h2 =>
        rcases ih h2 with h3 | h3
        · exact Or.inl (List.mem_cons_of_mem e h3)
        · exact Or.inr h3

/-- A dict assignment grows the size by at most one. -/
theorem length_dictSet (s : SpecSet) (k v : String) :
    (dictSet s k v).length ≤ s.length + 1 := by
  induction s with
  | nil => simp [dictSet]
  | cons e rest ih =>
    by_cases he : e.1 == k <;> simp [dictSet, he]
    omega

/-- Assigning one key does not change whether a different key is present. -/
theorem hasKey_dictSet_ne {k k0 : String} (s : SpecSet) (v0 : String) (h : k ≠ k0) :
    hasKey (dictSet s k0 v0) k = hasKey s k := by
  have hne : (k0 == k) = false := by
    simp only [beq_eq_false_iff_ne, ne_eq]
    exact fun hc => h hc.symm
  induction s with
  | nil => simp [dictSet, hasKey, hne]
  | cons e rest ih =>
    by_cases he : e.1 == k0
    · have hek : (e.1 == k) = false := by
        simp only [beq_eq_false_iff_ne, ne_eq]
        intro hc
        exact h (hc ▸ eq_of_beq he)
      simp [dictSet, hasKey, he, hek, hne]
    · simp [dictSet, hasKey, he, ih]

/-- Assigning one key does not change the binding of a different key. -/
theorem lookup_dictSet_ne {k k0 : String} (s : SpecSet) (v0 : String) (h : k ≠ k0) :
    lookupSpec (dictSet s k0 v0) k = lookupSpec s k := by
  have hne : (k0 == k) = false := by
    simp only [beq_eq_false_iff_ne, ne_eq]
    exact fun hc => h hc.symm
  induction s with
  | nil => simp [dictSet, lookupSpec, hne]
  | cons e rest ih =>
    by_cases he : e.1 == k0
    · have hek : (e.1 == k) = false := by
        simp only [beq_eq_false_iff_ne, ne_eq]
        intro hc
        exact h (hc ▸ eq_of_beq he)
      simp [dictSet, lookupSpec, he, hek, hne]
    · simp only [dictSet, he, if_false, lookupSpec]
      by_cases hek : e.1 == k <;> simp [hek, ih]

/-- Membership after an add-if-absent step. -/
theorem mem_addIfNew {s : SpecSet} {e0 : String × String} {x : String × String}
    (h : x ∈ addIfNew s e0) : x ∈ s ∨ x = e0 := by
  unfold addIfNew at h
  by_cases hk : hasKey s e0.1
  · simp only [hk, if_true] at h
    exact Or.inl h
  · simp only [hk, if_false] at h
    rcases List.mem_append.mp h with h2 | h2
    · exact Or.inl h2
    · right
      have : x = (e0.1, e0.2) := List.mem_singleton.mp h2
      exact this.trans (Prod.mk.eta)

/-- Membership after folding add-if-absent over a list. -/
theorem mem_foldl_addIfNew {l : List (String × String)} {s : SpecSet}
    {x : String × String} (h : x ∈ l.foldl addIfNew s) : x ∈ s ∨ x ∈ l := by
  induction l generalizing s with
  | nil => exact Or.inl h
  | cons e rest ih =>
    simp only [List.foldl_cons] at h
    rcases ih h with h2 | h2
    · rcases mem_addIfNew h2 with h3 | h3
      · exact Or.inl h3
      · exact Or.inr (h3 ▸ List.mem_cons_self e rest)
    · exact Or.inr (List.mem_cons_of_mem e h2)

/-- Size bound for a fold of add-if-absent. -/
theorem length_foldl_addIfNew (l : List (String × String)) (s : SpecSet) :
    (l.foldl addIfNew s).length ≤ s.length + l.length := by
  induction l generalizing s with
  | nil => simp
  | cons e rest ih =>
    simp only [List.foldl_cons, List.length_cons]
    refine le_trans (ih (addIfNew s e)) ?_
    unfold addIfNew
    by_cases hk : hasKey s e.1
    · simp [hk]
    · simp [hk]
      omega

/-- A binding in the left part survives appending entries on the right. -/
theorem lookup_append_of_some {s : SpecSet} {k v : String} (t : SpecSet)
    (h : lookupSpec s k = some v) : lookupSpec (s ++ t) k = some v := by
  induction s with
  | nil => simp [lookupSpec] at h
  | cons e rest ih =>
    simp only [lookupSpec, List.cons_append] at h ⊢
    by_cases hek : e.1 == k
    · simpa [hek] using h
    · simp only [hek, if_false] at h ⊢
      exact ih h

/-- An existing binding survives an add-if-absent step. -/
theorem lookup_addIfNew_of_some {s : SpecSet} {k v : String} (e0 : String × String)
    (h : lookupSpec s k = some v) : lookupSpec (addIfNew s e0) k = some v := by
  unfold addIfNew
  by_cases hk : hasKey s e0.1
  · simpa [hk]
  · simp only [hk, if_false]
    exact lookup_append_of_some _ h

/-- An existing binding survives a fold of add-if-absent steps. -/
theorem lookup_foldl_addIfNew_of_some {l : List (String × String)} {s : SpecSet}
    {k v : String} (h : lookupSpec s k = some v) :
    lookupSpec (l.foldl addIfNew s) k = some v := by
  induction l generalizing s with
  | nil => exact h
  | cons e rest ih => exact ih (lookup_addIfNew_of_some e h)

/-- Membership after a fold of dict assignments. -/
theorem mem_foldl_dictSet {l : List (String × String)} {s : SpecSet}
    {x : String × String}
    (h : x ∈ l.foldl (fun a e => dictSet a e.1 e.2) s) : x ∈ s ∨ x ∈ l := by
  induction l generalizing s with
  | nil => exact Or.inl h
  | cons e rest ih =>
    simp only [List.foldl_cons] at h
    rcases ih h with h2 | h2
    · rcases mem_dictSet h2 with h3 | h3
      · exact Or.inl h3
      · right
        have : x = e := Prod.ext h3.1 h3.2
        exact this ▸ List.mem_cons_self e rest
    · exact Or.inr (List.mem_cons_of_mem e h2)

/-- Size bound for a fold of dict assignments. -/
theorem length_foldl_dictSet (l : List (String × String)) (s : SpecSet) :
    (l.foldl (fun a e => dictSet a e.1 e.2) s).length ≤ s.length + l.length := by
  induction l generalizing s with
  | nil => simp
  | cons e rest ih =>
    simp only [List.foldl_cons, List.length_cons]
    refine le_trans (ih (dictSet s e.1 e.2)) ?_
    have := length_dictSet s e.1 e.2
    omega

/-- A binding survives a fold of dict assignments over foreign keys. -/
theorem lookup_foldl_dictSet_ne {l : List (String × String)} {s : SpecSet}
    {k : String} (h : ∀ e ∈ l, k ≠ e.1) :
    lookupSpec (l.foldl (fun a e => dictSet a e.1 e.2) s) k = lookupSpec s k := by
  induction l generalizing s with
  | nil => rfl
  | cons e rest ih =>
    simp only [List.foldl_cons]
    rw [ih (fun x hx => h x (List.mem_cons_of_mem e hx))]
    exact lookup_dictSet_ne s e.2 (h e (List.mem_cons_self e rest))

/-- A value accepted by the rule loop is non-empty and Validator-accepted. -/
theorem firstRuleValue_valid {rules : List SpecRule} {tl : Chars} {v : String}
    (h : firstRuleValue rules tl = some v) :
    v ≠ "" ∧ is_valid_value v 100 = true := by
  induction rules with
  | nil => simp [firstRuleValue] at h
  | cons rule rest ih =>
    obtain ⟨pat, fmt⟩ := rule
    cases hs : research true pat tl with
    | none =>
      simp only [firstRuleValue, hs] at h
      exact ih h
    | some m =>
      cases hf : fmt m with
      | error e =>
        simp only [firstRuleValue, hs, hf] at h
        exact ih h
      | ok w =>
        simp only [firstRuleValue, hs, hf] at h
        by_cases hv : w != "" && is_valid_value w 100
        · simp only [hv, if_true, Option.some.injEq] at h
          subst h
          simp only [Bool.and_eq_true, bne_iff_ne, ne_eq] at hv
          exact ⟨hv.1, hv.2⟩
        · simp only [hv, if_false] at h
          exact ih h

/-- Every entry added by the label loop carries a non-empty, Validator-accepted value. -/
theorem mem_extractLoop_valid {entries : List (String × List SpecRule)} {tl : Chars}
    {maxSpecs : Nat} {acc : SpecSet} {k v : String}
    (h : (k, v) ∈ extractLoop entries tl maxSpecs acc) :
    (k, v) ∈ acc ∨ (v ≠ "" ∧ is_valid_value v 100 = true) := by
  induction entries generalizing acc with
  | nil => exact Or.inl h
  | cons entry rest ih =>
    obtain ⟨label, rules⟩ := entry
    simp only [extractLoop] at h
    by_cases hb : maxSpecs ≤ acc.length
    · simp only [hb, if_true] at h
      exact Or.inl h
    · simp only [hb, if_false] at h
      cases hf : firstRuleValue rules tl with
      | none =>
        rw [hf] at h
        exact ih h
      | some w =>
        rw [hf] at h
        rcases ih h with h2 | h2
        · rcases mem_dictSet h2 with h3 | h3
          · exact Or.inl h3
          · exact Or.inr (h3.2 ▸ firstRuleValue_valid hf)
        · exact Or.inr h2

/-- Every label added by the label loop comes from the given catalog entries. -/
theorem mem_extractLoop_label {entries : List (String × List SpecRule)} {tl : Chars}
    {maxSpecs : Nat} {acc : SpecSet} {k v : String}
    (h : (k, v) ∈ extractLoop entries tl maxSpecs acc) :
    (k, v) ∈ acc ∨ k ∈ entries.map Prod.fst := by
  induction entries generalizing acc with
  | nil => exact Or.inl h
  | cons entry rest ih =>
    obtain ⟨label, rules⟩ := entry
    simp only [extractLoop] at h
    by_cases hb : maxSpecs ≤ acc.length
    · simp only [hb, if_true] at h
      exact Or.inl h
    · simp only [hb, if_false] at h
      cases hf : firstRuleValue rules tl with
      | none =>
        rw [hf] at h
        rcases ih h with h2 | h2
        · exact Or.inl h2
        · exact Or.inr (List.mem_cons_of_mem _ h2)
      | some w =>
        rw [hf] at h
        rcases ih h with h2 | h2
        · rcases mem_dictSet h2 with h3 | h3
          · exact Or.inl h3
          · exact Or.inr (h3.1 ▸ List.mem_cons_self _ _)
        · exact Or.inr (List.mem_cons_of_mem _ h2)

/-- The label loop never grows the spec set beyond the requested cap. -/
theorem length_extractLoop {entries : List (String × List SpecRule)} {tl : Chars}
    {maxSpecs : Nat} {acc : SpecSet} (h : acc.length ≤ maxSpecs) :
    (extractLoop entries tl maxSpecs acc).length ≤ maxSpecs := by
  induction entries generalizing acc with
  | nil => exact h
  | cons entry rest ih =>
    obtain ⟨label, rules⟩ := entry
    simp only [extractLoop]
    by_cases hb : maxSpecs ≤ acc.length
    · simp only [hb, if_true]
      exact h
    · simp only [hb, if_false]
      cases hf : firstRuleValue rules tl with
      | none => exact ih h
      | some w =>
        refine ih ?_
        have := length_dictSet acc label w
        omega

/-- If a key is absent and none of its catalog rule lists fires, the key stays absent. -/
theorem lookup_extractLoop_none {entries : List (String × List SpecRule)} {tl : Chars}
    {maxSpecs : Nat} {acc : SpecSet} {k : String}
    (hacc : hasKey acc k = false)
    (hrules : ∀ rules, (k, rules) ∈ entries → firstRuleValue rules tl = none) :
    lookupSpec (extractLoop entries tl maxSpecs acc) k = none := by
  induction entries generalizing acc with
  | nil => exact (hasKey_eq_false_iff acc k).mp hacc
  | cons entry rest ih =>
    obtain ⟨label, rules⟩ := entry
    simp only [extractLoop]
    by_cases hb : maxSpecs ≤ acc.length
    · simp only [hb, if_true]
      exact (hasKey_eq_false_iff acc k).mp hacc
    · simp only [hb, if_false]
      cases hf : firstRuleValue rules tl with
      | none =>
        exact ih hacc (fun rs hrs => hrules rs (List.mem_cons_of_mem _ hrs))
      | some w =>
        have hlk : label ≠ k := by
          intro hc
          have := hrules rules (hc ▸ List.mem_cons_self _ _)
          rw [this] at hf
          exact Option.noConfusion hf
        refine ih ?_ (fun rs hrs => hrules rs (List.mem_cons_of_mem _ hrs))
        rw [hasKey_dictSet_ne acc w (fun hc => hlk hc.symm)]
        exact hacc

/-- Every bullet feature is labelled "Feature" and Validator-accepted. -/
theorem mem_bulletFeatures {text : String} {n : Nat} {x : String × String}
    (h : x ∈ bulletFeatures text n) :
    x.1 = "Feature" ∧ is_valid_value x.2 100 = true := by
  unfold bulletFeatures at h
  obtain ⟨b, _, hb⟩ := List.mem_filterMap.mp h
  by_cases hc : 10 < (pyRStrip (pyStrip b.data) ['.', ',']).length &&
      (pyRStrip (pyStrip b.data) ['.', ',']).length < 80 &&
      is_valid_value ⟨pyRStrip (pyStrip b.data) ['.', ',']⟩ 100
  · simp only [hc, if_true, Option.some.injEq] at hb
    subst hb
    simp only [Bool.and_eq_true] at hc
    exact ⟨rfl, hc.2⟩
  · simp [hc] at hb

/-- The bullet pass yields at most the requested number of features. -/
theorem length_bulletFeatures (text : String) (n : Nat) :
    (bulletFeatures text n).length ≤ n := by
  unfold bulletFeatures
  refine le_trans (List.length_filterMap_le _ _) ?_
  exact le_trans (List.length_take_le _ _) (le_refl _)

/-- Every feature added by one keyword pass carries that pass's label and a
Validator-accepted value. -/
theorem mem_kwStep {text : String} {n : Nat} {acc : List (String × String)}
    {pr : Re × String} {x : String × String} (h : x ∈ kwStep text n acc pr) :
    x ∈ acc ∨ (x.1 = pr.2 ∧ is_valid_value x.2 100 = true) := by
  unfold kwStep at h
  rcases List.mem_append.mp h with h2 | h2
  · exact Or.inl h2
  · right
    obtain ⟨b, _, hb⟩ := List.mem_filterMap.mp h2
    by_cases hc : 15 < (pyRStrip (pyStrip b.data) [',']).length &&
        (pyRStrip (pyStrip b.data) [',']).length < 80 &&
        is_valid_value ⟨pyRStrip (pyStrip b.data) [',']⟩ 100
    · simp only [hc, if_true, Option.some.injEq] at hb
      subst hb
      simp only [Bool.and_eq_true] at hc
      exact ⟨rfl, hc.2⟩
    · simp [hc] at hb

/-- One keyword pass keeps the feature count within the requested cap. -/
theorem length_kwStep {text : String} {n : Nat} {acc : List (String × String)}
    (pr : Re × String) (h : acc.length ≤ n) : (kwStep text n acc pr).length ≤ n := by
  unfold kwStep
  rw [List.length_append]
  have h1 := List.length_filterMap_le
    (fun t =>
      let f := pyRStrip (pyStrip t.data) [',']
      if 15 < f.length && f.length < 80 && is_valid_value ⟨f⟩ 100 then
        some (pr.2, (⟨f⟩ : String))
      else none)
    ((findallG1 true pr.1 text.data).take (n - acc.length))
  have h2 := List.length_take_le (n - acc.length) (findallG1 true pr.1 text.data)
  omega

/-- Every keyword-fallback feature is labelled "Feature" or "Included" and
Validator-accepted. -/
theorem mem_keywordFeatures {text : String} {n : Nat} {x : String × String}
    (h : x ∈ keywordFeatures text n) :
    (x.1 = "Feature" ∨ x.1 = "Included") ∧ is_valid_value x.2 100 = true := by
  unfold keywordFeatures at h
  simp only [List.foldl_cons, List.foldl_nil] at h
  rcases mem_kwStep h with h2 | h2
  · rcases mem_kwStep h2 with h3 | h3
    · rcases mem_kwStep h3 with h4 | h4
      · simp at h4
      · exact ⟨Or.inl h4.1, h4.2⟩
    · exact ⟨Or.inr h3.1, h3.2⟩
  · exact ⟨Or.inr h2.1, h2.2⟩

/-- The keyword fallback yields at most the requested number of features. -/
theorem length_keywordFeatures (text : String) (n : Nat) :
    (keywordFeatures text n).length ≤ n := by
  unfold keywordFeatures
  simp only [List.foldl_cons, List.foldl_nil]
  exact length_kwStep _ (length_kwStep _ (length_kwStep _ (by simp)))

/-- Every feature returned by `extract_key_features` is labelled "Feature" or
"Included" and Validator-accepted. -/
theorem mem_extract_key_features {text : String} {n : Nat} {x : String × String}
    (h : x ∈ extract_key_features text n) :
    (x.1 = "Feature" ∨ x.1 = "Included") ∧ is_valid_value x.2 100 = true := by
  unfold extract_key_features at h
  by_cases hb : (bulletFeatures text n).isEmpty
  · simp only [hb, Bool.not_true, if_false] at h
    exact mem_keywordFeatures h
  · simp only [hb, Bool.not_false, if_true] at h
    have h2 := mem_bulletFeatures h
    exact ⟨Or.inl h2.1, h2.2⟩

/-- `extract_key_features` yields at most the requested number of features. -/
theorem length_extract_key_features (text : String) (n : Nat) :
    (extract_key_features text n).length ≤ n := by
  unfold extract_key_features
  by_cases hb : (bulletFeatures text n).isEmpty
  · simp only [hb, Bool.not_true, if_false]
    exact length_keywordFeatures text n
  · simp only [hb, Bool.not_false, if_true]
    exact length_bulletFeatures text n

/-- Every value accepted by the pattern pass is Validator-accepted. -/
theorem mem_extract_specs_valid {t : String} {n : Nat} {k v : String}
    (h : (k, v) ∈ extract_specs_from_text t n) : is_valid_value v 100 = true := by
  unfold extract_specs_from_text at h
  rcases mem_extractLoop_valid h with h2 | h2
  · simp at h2
  · exact h2.2

/-- Every label produced by the pattern pass is a catalog label. -/
theorem mem_extract_specs_label {t : String} {n : Nat} {k v : String}
    (h : (k, v) ∈ extract_specs_from_text t n) :
    k ∈ ["Dimensions", "Weight", "Capacity", "Power", "Voltage", "Material",
         "Color", "Temperature Range", "Settings", "Pieces"] := by
  unfold extract_specs_from_text at h
  rcases mem_extractLoop_label h with h2 | h2
  · simp at h2
  · simpa [patterns] using h2

/-- The description pass yields at most 5 entries. -/
theorem length_descPass (ctx : ProductContext) : (descPass ctx).length ≤ 5 := by
  unfold descPass
  cases ctx.bodyHtml with
  | none => simp
  | some b => exact length_extractLoop (by simp)

/-- The title pass yields at most 2 entries. -/
theorem length_titlePass (ctx : ProductContext) : (titlePass ctx).length ≤ 2 := by
  unfold titlePass
  cases ctx.title with
  | none => simp
  | some t => exact length_extractLoop (by simp)

/-- Membership in the description pass comes from the pattern extractor. -/
theorem mem_descPass {ctx : ProductContext} {k v : String}
    (h : (k, v) ∈ descPass ctx) :
    (k, v) ∈ extract_specs_from_text (clean_html ctx.bodyHtml) 5 := by
  unfold descPass at h
  cases hb : ctx.bodyHtml with
  | none => rw [hb] at h; simp at h
  | some b => rw [hb] at h; exact h

/-- Membership in the title pass comes from the pattern extractor. -/
theorem mem_titlePass {ctx : ProductContext} {k v : String}
    (h : (k, v) ∈ titlePass ctx) :
    (k, v) ∈ extract_specs_from_text (clean_html ctx.title) 2 := by
  unfold titlePass at h
  cases hb : ctx.title with
  | none => rw [hb] at h; simp at h
  | some t => rw [hb] at h; exact h

/-- Membership after the Brand step. -/
theorem mem_brandStep {ctx : ProductContext} {s : SpecSet} {k v : String}
    (h : (k, v) ∈ brandStep ctx s) : (k, v) ∈ s ∨ k = "Brand" := by
  unfold brandStep at h
  cases hb : extract_brand ctx.title ctx.vendor with
  | none => rw [hb] at h; exact Or.inl h
  | some b =>
    rw [hb] at h
    simp only at h
    by_cases hcond : (b != "" && !hasKey s "Brand") = true
    · rw [if_pos hcond] at h
      rcases mem_dictSet h with h2 | h2
      · exact Or.inl h2
      · exact Or.inr h2.1
    · rw [if_neg hcond] at h
      exact Or.inl h

/-- Membership after the Category step. -/
theorem mem_categoryStep {ctx : ProductContext} {s : SpecSet} {k v : String}
    (h : (k, v) ∈ categoryStep ctx s) : (k, v) ∈ s ∨ k = "Category" := by
  unfold categoryStep at h
  cases hb : ctx.category with
  | none => rw [hb] at h; exact Or.inl h
  | some c0 =>
    rw [hb] at h
    simp only at h
    by_cases hcond : (!(pyStrip c0.data).isEmpty && 3 < (pyStrip c0.data).length &&
        (pyStrip c0.data).length < 50) = true
    · rw [if_pos hcond] at h
      rcases mem_dictSet h with h2 | h2
      · exact Or.inl h2
      · exact Or.inr h2.1
    · rw [if_neg hcond] at h
      exact Or.inl h

/-- Membership after the Material step. -/
theorem mem_materialStep {ctx : ProductContext} {s : SpecSet} {k v : String}
    (h : (k, v) ∈ materialStep ctx s) : (k, v) ∈ s ∨ k = "Material" := by
  unfold materialStep at h
  cases hb : ctx.materialHint with
  | none => rw [hb] at h; exact Or.inl h
  | some m0 =>
    rw [hb] at h
    simp only at h
    by_cases hcond : (!hasKey s "Material" && 3 < (pyStrip m0.data).length &&
        (pyStrip m0.data).length < 30) = true
    · rw [if_pos hcond] at h
      rcases mem_dictSet h with h2 | h2
      · exact Or.inl h2
      · exact Or.inr h2.1
    · rw [if_neg hcond] at h
      exact Or.inl h

/-- Entries of the merge's steps 1-5 with a label other than Brand, Category and
Material come from the two pattern passes and are Validator-accepted. -/
theorem mem_preFeatureSpecs_valid {ctx : ProductContext} {k v : String}
    (h : (k, v) ∈ preFeatureSpecs ctx) (hB : k ≠ "Brand") (hC : k ≠ "Category")
    (hM : k ≠ "Material") : is_valid_value v 100 = true := by
  unfold preFeatureSpecs at h
  rcases mem_materialStep h with h4 | h4
  · rcases mem_categoryStep h4 with h3 | h3
    · rcases mem_brandStep h3 with h2 | h2
      · rcases mem_foldl_addIfNew h2 with hd | ht
        · exact mem_extract_specs_valid (mem_descPass hd)
        · exact mem_extract_specs_valid (mem_titlePass ht)
      · exact absurd h2 hB
    · exact absurd h3 hC
  · exact absurd h4 hM

/-- Each of the merge's steps 3-5 grows the spec set by at most one entry. -/
theorem length_brandStep (ctx : ProductContext) (s : SpecSet) :
    (brandStep ctx s).length ≤ s.length + 1 := by
  unfold brandStep
  cases extract_brand ctx.title ctx.vendor with
  | none => simp
  | some b =>
    simp only
    by_cases hcond : (b != "" && !hasKey s "Brand") = true
    · rw [if_pos hcond]
      exact length_dictSet s "Brand" b
    · rw [if_neg hcond]
      omega

/-- The Category step grows the spec set by at most one entry. -/
theorem length_categoryStep (ctx : ProductContext) (s : SpecSet) :
    (categoryStep ctx s).length ≤ s.length + 1 := by
  unfold categoryStep
  cases ctx.category with
  | none => simp
  | some c0 =>
    simp only
    by_cases hcond : (!(pyStrip c0.data).isEmpty && 3 < (pyStrip c0.data).length &&
        (pyStrip c0.data).length < 50) = true
    · rw [if_pos hcond]
      exact length_dictSet s "Category" _
    · rw [if_neg hcond]
      omega

/-- The Material step grows the spec set by at most one entry. -/
theorem length_materialStep (ctx : ProductContext) (s : SpecSet) :
    (materialStep ctx s).length ≤ s.length + 1 := by
  unfold materialStep
  cases ctx.materialHint with
  | none => simp
  | some m0 =>
    simp only
    by_cases hcond : (!hasKey s "Material" && 3 < (pyStrip m0.data).length &&
        (pyStrip m0.data).length < 30) = true
    · rw [if_pos hcond]
      exact length_dictSet s "Material" _
    · rw [if_neg hcond]
      omega

/-- The merge's steps 1-5 yield at most 10 entries (5 + 2 + 1 + 1 + 1). -/
theorem length_preFeatureSpecs (ctx : ProductContext) :
    (preFeatureSpecs ctx).length ≤ 10 := by
  unfold preFeatureSpecs
  have h1 := length_descPass ctx
  have h2 := length_foldl_addIfNew (titlePass ctx) (descPass ctx)
  have h2b := length_titlePass ctx
  have h3 := length_brandStep ctx ((titlePass ctx).foldl addIfNew (descPass ctx))
  have h4 := length_categoryStep ctx
    (brandStep ctx ((titlePass ctx).foldl addIfNew (descPass ctx)))
  have h5 := length_materialStep ctx
    (categoryStep ctx (brandStep ctx ((titlePass ctx).foldl addIfNew (descPass ctx))))
  omega

/-- An always-erroring rule inside a label's rule list contributes nothing: the
rule loop proceeds to the next rule exactly as if the rule were absent. -/
theorem firstRuleValue_error_skip (r1 r2 : List SpecRule) (pat : Re) (e : String)
    (tl : Chars) :
    firstRuleValue (r1 ++ (pat, fun _ => Except.error e) :: r2) tl
      = firstRuleValue (r1 ++ r2) tl := by
  induction r1 with
  | nil =>
    cases hs : research true pat tl with
    | none => simp [firstRuleValue, hs]
    | some m => simp [firstRuleValue, hs]
  | cons rule rest ih =>
    obtain ⟨p, f⟩ := rule
    cases hs : research true p tl with
    | none =>
      simp only [List.cons_append, firstRuleValue, hs]
      exact ih
    | some m =>
      cases hf : f m with
      | error e2 =>
        simp only [List.cons_append, firstRuleValue, hs, hf]
        exact ih
      | ok w =>
        simp only [List.cons_append, firstRuleValue, hs, hf]
        by_cases hv : (w != "" && is_valid_value w 100) = true
        · simp [hv]
        · simp only [hv, if_false]
          exact ih

/-- The label loop only sees a rule list through the value its rule loop returns. -/
theorem extractLoop_entry_congr (pre post : List (String × List SpecRule))
    (label : String) (rulesA rulesB : List SpecRule) (tl : Chars) (maxSpecs : Nat)
    (acc : SpecSet) (h : firstRuleValue rulesA tl = firstRuleValue rulesB tl) :
    extractLoop (pre ++ (label, rulesA) :: post) tl maxSpecs acc
      = extractLoop (pre ++ (label, rulesB) :: post) tl maxSpecs acc := by
  induction pre generalizing acc with
  | nil =>
    simp only [List.nil_append, extractLoop]
    rw [h]
  | cons entry rest ih =>
    obtain ⟨l0, r0⟩ := entry
    simp only [List.cons_append, extractLoop]
    by_cases hb : maxSpecs ≤ acc.length
    · simp [hb]
    · simp only [hb, if_false]
      cases hf : firstRuleValue r0 tl with
      | none =>
        simp only
        exact ih acc
      | some w =>
        simp only
        exact ih (dictSet acc l0 w)

/-- C2: the top-level merge is total - modelled by `process_row_specs` being a
total function - and it degrades to the empty spec set on a record with every
field absent; moreover a formatter that raises on a matched pattern (modelled by
a rule whose formatter returns `Except.error`) is treated as producing no value
for that rule, evaluation continuing with the next rule: inserting such a rule
anywhere in any label's rule list leaves the extraction result unchanged. -/
theorem C2_never_raises :
    (∀ (pre post : List (String × List SpecRule)) (label : String)
        (r1 r2 : List SpecRule) (pat : Re) (e : String) (tl : Chars)
        (maxSpecs : Nat) (acc : SpecSet),
      extractLoop (pre ++ (label, r1 ++ (pat, fun _ => Except.error e) :: r2) :: post)
          tl maxSpecs acc
        = extractLoop (pre ++ (label, r1 ++ r2) :: post) tl maxSpecs acc)
    ∧ process_row_specs ⟨none, none, none, none, none⟩ = [] := by
  constructor
  · intro pre post label r1 r2 pat e tl maxSpecs acc
    exact extractLoop_entry_congr pre post label _ _ tl maxSpecs acc
      (firstRuleValue_error_skip r1 r2 pat e tl)
  · rfl

/-- C4: the description pattern pass (cap 5) returns at most 5 labelled entries
and the title pattern pass (cap 2) returns at most 2, for every input text. -/
theorem C4_pass_caps (t : String) :
    (extract_specs_from_text t 5).length ≤ 5 ∧
    (extract_specs_from_text t 2).length ≤ 2 :=
  ⟨length_extractLoop (by simp), length_extractLoop (by simp)⟩

/-- C1 counterexample: a record whose Vendor cell is "!!!!" (trimmed length 4,
accepted by the Brand length check alone) produces the entry Brand = "!!!!",
whose value the Validator rejects (special-character ratio 1 > 0.3) - so not
every value in the merged spec set satisfies the Validator. -/
theorem C1_counterexample :
    ("Brand", "!!!!") ∈ process_row_specs ⟨none, none, none, some "!!!!", none⟩ ∧
    is_valid_value "!!!!" 100 = false := by
  constructor
  · decide
  · decide

/-- C1 (amended): every value of the merged spec set passes the Validator
`_is_valid_value(value, 100)` except possibly the Brand, Category and Material
entries added in merge steps 3-5, which are only length-checked; values produced
by the pattern passes and the feature step are all Validator-accepted. -/
theorem C1_validator_gate (ctx : ProductContext) (k v : String)
    (h : (k, v) ∈ process_row_specs ctx) (hB : k ≠ "Brand") (hC : k ≠ "Category")
    (hM : k ≠ "Material") : is_valid_value v 100 = true := by
  unfold process_row_specs at h
  by_cases hlt : (preFeatureSpecs ctx).length < 4
  · rw [if_pos hlt] at h
    cases hbody : ctx.bodyHtml with
    | none =>
      rw [hbody] at h
      simp only at h
      exact mem_preFeatureSpecs_valid h hB hC hM
    | some b =>
      rw [hbody] at h
      simp only at h
      rcases mem_foldl_dictSet h with h2 | h2
      · exact mem_preFeatureSpecs_valid h2 hB hC hM
      · exact (mem_extract_key_features h2).2
  · rw [if_neg hlt] at h
    exact mem_preFeatureSpecs_valid h hB hC hM

/-- C1 witness: a record whose description is "5 kg" yields the entry
Weight = "5 kg", a non-metadata label, and that value passes the Validator. -/
theorem C1_witness :
    ("Weight", "5 kg") ∈ process_row_specs ⟨none, some "5 kg", none, none, none⟩ ∧
    is_valid_value "5 kg" 100 = true :=
  ⟨by decide,
    C1_validator_gate ⟨none, some "5 kg", none, none, none⟩ "Weight" "5 kg"
      (by decide) (by decide) (by decide) (by decide)⟩

/-- C10: the merged spec set has at most 10 entries (5 description + 2 title +
Brand + Category + Material); the feature step runs only when fewer than 4 specs
were found after steps 1-5 (otherwise the result is exactly the step-1-5 set);
and whenever it could run the final count is at most 5, so the size never
exceeds the larger of the step-1-5 count and 5. -/
theorem C10_merge_size (ctx : ProductContext) :
    (process_row_specs ctx).length ≤ 10 ∧
    (process_row_specs ctx = preFeatureSpecs ctx ∨ (preFeatureSpecs ctx).length < 4) ∧
    (process_row_specs ctx).length ≤ max (preFeatureSpecs ctx).length 5 := by
  by_cases hlt : (preFeatureSpecs ctx).length < 4
  · have hb : (process_row_specs ctx).length ≤ 5 := by
      unfold process_row_specs
      rw [if_pos hlt]
      cases hbody : ctx.bodyHtml with
      | none =>
        simp only
        omega
      | some b =>
        simp only
        have hf := length_extract_key_features (clean_html (some b))
          (min 2 (5 - (preFeatureSpecs ctx).length))
        have hl := length_foldl_dictSet
          (extract_key_features (clean_html (some b))
            (min 2 (5 - (preFeatureSpecs ctx).length))) (preFeatureSpecs ctx)
        have hmin : min 2 (5 - (preFeatureSpecs ctx).length) ≤
            5 - (preFeatureSpecs ctx).length := min_le_right _ _
        omega
    exact ⟨le_trans hb (by omega), Or.inr hlt, le_trans hb (le_max_right _ _)⟩
  · have heq : process_row_specs ctx = preFeatureSpecs ctx := by
      unfold process_row_specs
      rw [if_neg hlt]
    refine ⟨heq ▸ length_preFeatureSpecs ctx, Or.inl heq, ?_⟩
    rw [heq]
    exact le_max_left _ _

/-- A successful lookup exhibits a member of the spec set. -/
theorem lookup_some_mem {s : SpecSet} {k v : String} (h : lookupSpec s k = some v) :
    (k, v) ∈ s := by
  induction s with
  | nil => simp [lookupSpec] at h
  | cons e rest ih =>
    simp only [lookupSpec] at h
    by_cases hek : e.1 == k
    · rw [if_pos hek] at h
      have h1 : e.1 = k := eq_of_beq hek
      have h2 : e.2 = v := by simpa using h
      have h3 : (k, v) = e := by
        rw [← h1, ← h2]
      exact List.mem_cons.mpr (Or.inl h3)
    · rw [if_neg hek] at h
      exact List.mem_cons_of_mem e (ih h)

/-- A catalog label is none of the labels written by merge steps 4 and 6. -/
theorem catalog_label_ne {k : String}
    (h : k ∈ ["Dimensions", "Weight", "Capacity", "Power", "Voltage", "Material",
              "Color", "Temperature Range", "Settings", "Pieces"]) :
    k ≠ "Category" ∧ k ≠ "Feature" ∧ k ≠ "Included" := by
  fin_cases h <;> exact ⟨by decide, by decide, by decide⟩

/-- An existing binding survives the Brand step (it adds "Brand" only when that
label is absent). -/
theorem lookup_brandStep_of_some {ctx : ProductContext} {s : SpecSet} {k v : String}
    (h : lookupSpec s k = some v) : lookupSpec (brandStep ctx s) k = some v := by
  unfold brandStep
  cases hb : extract_brand ctx.title ctx.vendor with
  | none => exact h
  | some b =>
    simp only
    by_cases hcond : (b != "" && !hasKey s "Brand") = true
    · rw [if_pos hcond]
      by_cases hk : k = "Brand"
      · subst hk
        simp only [Bool.and_eq_true, Bool.not_eq_true'] at hcond
        have h2 := (hasKey_eq_false_iff s "Brand").mp hcond.2
        rw [h2] at h
        exact Option.noConfusion h
      · rw [lookup_dictSet_ne s b hk]
        exact h
    · rw [if_neg hcond]
      exact h

/-- An existing binding of a label other than "Category" survives the Category step. -/
theorem lookup_categoryStep_of_ne {ctx : ProductContext} {s : SpecSet} {k v : String}
    (hk : k ≠ "Category") (h : lookupSpec s k = some v) :
    lookupSpec (categoryStep ctx s) k = some v := by
  unfold categoryStep
  cases hb : ctx.category with
  | none => exact h
  | some c0 =>
    simp only
    by_cases hcond : (!(pyStrip c0.data).isEmpty && 3 < (pyStrip c0.data).length &&
        (pyStrip c0.data).length < 50) = true
    · rw [if_pos hcond, lookup_dictSet_ne s _ hk]
      exact h
    · rw [if_neg hcond]
      exact h

/-- An existing binding survives the Material step (it adds "Material" only when
that label is absent). -/
theorem lookup_materialStep_of_some {ctx : ProductContext} {s : SpecSet} {k v : String}
    (h : lookupSpec s k = some v) : lookupSpec (materialStep ctx s) k = some v := by
  unfold materialStep
  cases hb : ctx.materialHint with
  | none => exact h
  | some m0 =>
    simp only
    by_cases hcond : (!hasKey s "Material" && 3 < (pyStrip m0.data).length &&
        (pyStrip m0.data).length < 30) = true
    · rw [if_pos hcond]
      by_cases hk : k = "Material"
      · subst hk
        simp only [Bool.and_eq_true, Bool.not_eq_true'] at hcond
        have h2 := (hasKey_eq_false_iff s "Material").mp hcond.1.1
        rw [h2] at h
        exact Option.noConfusion h
      · rw [lookup_dictSet_ne s _ hk]
        exact h
    · rw [if_neg hcond]
      exact h

/-- C3: whenever the description pattern pass and the title pattern pass each
yield an accepted value for the same label, the merged spec set binds that label
to the description-derived value - the title pass only adds labels that are not
already present, and no later merge step overwrites a pattern label that is
already bound. -/
theorem C3_description_wins (ctx : ProductContext) (label vd vt : String)
    (hd : lookupSpec (descPass ctx) label = some vd)
    (_ht : lookupSpec (titlePass ctx) label = some vt) :
    lookupSpec (process_row_specs ctx) label = some vd := by
  have hlabels := mem_extract_specs_label (mem_descPass (lookup_some_mem hd))
  have hne := catalog_label_ne hlabels
  have h2 : lookupSpec ((titlePass ctx).foldl addIfNew (descPass ctx)) label = some vd :=
    lookup_foldl_addIfNew_of_some hd
  have h5 : lookupSpec (preFeatureSpecs ctx) label = some vd := by
    unfold preFeatureSpecs
    exact lookup_materialStep_of_some
      (lookup_categoryStep_of_ne hne.1 (lookup_brandStep_of_some h2))
  unfold process_row_specs
  by_cases hlt : (preFeatureSpecs ctx).length < 4
  · rw [if_pos hlt]
    cases hbody : ctx.bodyHtml with
    | none =>
      simp only
      exact h5
    | some b =>
      simp only
      rw [lookup_foldl_dictSet_ne ?_]
      · exact h5
      · intro e he
        rcases (mem_extract_key_features he).1 with h6 | h6
        · rw [h6]
          exact hne.2.1
        · rw [h6]
          exact hne.2.2
  · rw [if_neg hlt]
    exact h5

/-- C3 witness: with description "5 kg" and title "3 lbs" both passes yield a
Weight value and the merged result keeps the description-derived "5 kg". -/
theorem C3_witness :
    lookupSpec (descPass ⟨some "3 lbs", some "5 kg", none, none, none⟩) "Weight"
        = some "5 kg" ∧
    lookupSpec (titlePass ⟨some "3 lbs", some "5 kg", none, none, none⟩) "Weight"
        = some "3 lbs" ∧
    lookupSpec (process_row_specs ⟨some "3 lbs", some "5 kg", none, none, none⟩)
        "Weight" = some "5 kg" :=
  ⟨by decide, by decide,
    C3_description_wins ⟨some "3 lbs", some "5 kg", none, none, none⟩ "Weight"
      "5 kg" "3 lbs" (by decide) (by decide)⟩

set_option maxRecDepth 8192 in
/-- C5 counterexample: the probe text contains a bullet glyph, yet no
bullet-derived feature survives the filters (the sole segment "!!!!!!!!!!!!"
fails the Validator), and the Feature Phrase Extractor still runs the
phrase-keyword fallback, returning the keyword-derived feature - so the fallback
is not gated on the absence of bullet glyphs. -/
theorem C5_counterexample :
    bulletProbe.data.contains '•' = true ∧
    bulletFeatures bulletProbe 2 = [] ∧
    extract_key_features bulletProbe 2 =
      [("Feature", "a removable nonstick plate for easy cleaning")] ∧
    keywordFeatures bulletProbe 2 =
      [("Feature", "a removable nonstick plate for easy cleaning")] := by
  refine ⟨by decide, by decide, by decide, by decide⟩

/-- C5 (amended): the Feature Phrase Extractor runs the phrase-keyword fallback
exactly when no bullet-derived feature survives the bullet segmentation, length
and Validator filters (not merely when no bullet glyph occurs); whenever at
least one bullet-derived feature is found it returns that list - which is
truncated to the requested count - and the keyword patterns are not consulted. -/
theorem C5_bullet_priority (t : String) (n : Nat) :
    extract_key_features t n =
      (if (bulletFeatures t n).isEmpty then keywordFeatures t n
       else bulletFeatures t n) ∧
    (bulletFeatures t n).length ≤ n := by
  constructor
  · unfold extract_key_features
    by_cases hb : (bulletFeatures t n).isEmpty <;> simp [hb]
  · exact length_bulletFeatures t n

/-- C6 counterexample: the bare input "10x5" yields no Dimensions entry at all -
the two-number branch of the formatter is reachable only through the second
Dimensions pattern, which requires a "dimensions:"/"size:" prefix. -/
theorem C6_counterexample :
    lookupSpec (extract_specs_from_text "10x5" 6) "Dimensions" = none := by
  decide

/-- C6 (amended): "12.5 x 8 x 3 inches" yields Dimensions = "12.5 x 8 x 3 inches";
the bare "10x5" yields no Dimensions entry (the first pattern needs three numeric
groups and the second needs a "dimensions:"/"size:" prefix), while the prefixed
"size: 10x5" yields the two-group form Dimensions = "10 x 5" with no unit. -/
theorem C6_dimension_formatting :
    lookupSpec (extract_specs_from_text "12.5 x 8 x 3 inches" 6) "Dimensions"
        = some "12.5 x 8 x 3 inches" ∧
    lookupSpec (extract_specs_from_text "10x5" 6) "Dimensions" = none ∧
    lookupSpec (extract_specs_from_text "size: 10x5" 6) "Dimensions"
        = some "10 x 5" := by
  refine ⟨by decide, by decide, by decide⟩

/-- C9 counterexample: "up to 12 cups" does produce a Temperature Range entry,
but its value is "12° C", not "12° F" - the optional unit group of the pattern
captures the letter c of "cups". -/
theorem C9_counterexample :
    lookupSpec (extract_specs_from_text "up to 12 cups" 6) "Temperature Range"
        = some "12° C" ∧ "12° C" ≠ "12° F" := by
  refine ⟨by decide, by decide⟩

/-- C9 (amended): with both the degrees marker and the unit optional, an "up to
N" phrase with no temperature wording yields a Temperature Range entry: "up to
12 cups" yields "12° C" (the unit group grabs the c of "cups"), and the °F
default appears when no unit-like letter follows, e.g. "up to 12 items" yields
"12° F". -/
theorem C9_temperature_overfire :
    lookupSpec (extract_specs_from_text "up to 12 cups" 6) "Temperature Range"
        = some "12° C" ∧
    lookupSpec (extract_specs_from_text "up to 12 items" 6) "Temperature Range"
        = some "12° F" := by
  refine ⟨by decide, by decide⟩

/-- The matcher on a concatenation: every way to match the head, continued by
every way to match the tail. -/
theorem mrun_seq (s : Chars) (ci : Bool) (fuel : Nat) (a b : Re) (st : MSt) :
    mrun s ci fuel (.seq a b) st
      = (mrun s ci fuel a st).flatMap (fun st2 => mrun s ci fuel b st2) := rfl

/-- The matcher on a negative lookahead: succeed without moving exactly when the
body has no match here. -/
theorem mrun_nla (s : Chars) (ci : Bool) (fuel : Nat) (r : Re) (st : MSt) :
    mrun s ci fuel (.nla r) st
      = if (mrun s ci fuel r st).isEmpty then [st] else [] := rfl

/-- When every way of matching the Power core at a position is followed by a
match of the lookahead body `\s*max`, the full Power pattern has no match at
that position. -/
theorem mrun_powerRe_nil {s : Chars} {fuel : Nat} {st : MSt}
    (h : ∀ st2 ∈ mrun s true fuel powerCore st,
      mrun s true fuel powerLA st2 ≠ []) :
    mrun s true fuel powerRe st = [] := by
  unfold powerRe
  rw [mrun_seq]
  apply List.flatMap_eq_nil_iff.mpr
  intro st2 h2
  rw [mrun_nla]
  have h3 := h st2 h2
  have h4 : (mrun s true fuel powerLA st2).isEmpty = false := by
    cases hres : mrun s true fuel powerLA st2 with
    | nil => exact absurd hres h3
    | cons a l => rfl
  rw [h4]
  simp

/-- A search worker finds nothing when the pattern matches at no position. -/
theorem searchFromAux_none {s : Chars} {ci : Bool} {fuel : Nat} {re : Re}
    (h : ∀ j, j ≤ s.length → mrun s ci fuel re ⟨j, []⟩ = []) :
    ∀ g i, searchFromAux s ci fuel re g i = none := by
  intro g
  induction g with
  | zero => intro i; rfl
  | succ g2 ih =>
    intro i
    unfold searchFromAux
    by_cases hlen : s.length < i
    · rw [if_pos hlen]
    · rw [if_neg hlen, h i (by omega)]
      exact ih (i + 1)

/-- C8: for every input text in which every match of the Power core
`(\d+)\s*(watt|watts|w)\b` is immediately followed by `\s*max`, the extractor
produces no Power entry - the negative lookahead rejects every candidate, the
Power rule list yields nothing, and no other catalog label writes "Power". -/
theorem C8_power_negative_lookahead (t : String) (n : Nat)
    (h : powerAllMax t = true) :
    lookupSpec (extract_specs_from_text t n) "Power" = none := by
  have hall : ∀ j, j ≤ (lowerCs t.data).length →
      mrun (lowerCs t.data) true (reFuel (lowerCs t.data)) powerRe ⟨j, []⟩ = [] := by
    intro j hj
    apply mrun_powerRe_nil
    intro st2 h2
    unfold powerAllMax at h
    rw [List.all_eq_true] at h
    have h3 := h j (List.mem_range.mpr (by omega))
    simp only [List.all_eq_true] at h3
    have h4 := h3 st2 h2
    intro hnil
    rw [hnil] at h4
    simp at h4
  have hsearch : research true powerRe (lowerCs t.data) = none := by
    unfold research searchFrom
    rw [searchFromAux_none hall]
    rfl
  have hfrv : firstRuleValue [(powerRe, fmtGroups12)] (lowerCs t.data) = none := by
    unfold firstRuleValue
    rw [hsearch]
    rfl
  unfold extract_specs_from_text
  refine lookup_extractLoop_none ?_ ?_
  · rfl
  · intro rules hr
    have hrules : rules = [(powerRe, fmtGroups12)] := by
      simp only [patterns, List.mem_cons, List.not_mem_nil, or_false] at hr
      rcases hr with h9 | h9 | h9 | h9 | h9 | h9 | h9 | h9 | h9 | h9
      · exact absurd (show "Power" = "Dimensions" from congrArg Prod.fst h9) (by decide)
      · exact absurd (show "Power" = "Weight" from congrArg Prod.fst h9) (by decide)
      · exact absurd (show "Power" = "Capacity" from congrArg Prod.fst h9) (by decide)
      · exact show rules = [(powerRe, fmtGroups12)] from congrArg Prod.snd h9
      · exact absurd (show "Power" = "Voltage" from congrArg Prod.fst h9) (by decide)
      · exact absurd (show "Power" = "Material" from congrArg Prod.fst h9) (by decide)
      · exact absurd (show "Power" = "Color" from congrArg Prod.fst h9) (by decide)
      · exact absurd (show "Power" = "Temperature Range" from congrArg Prod.fst h9)
          (by decide)
      · exact absurd (show "Power" = "Settings" from congrArg Prod.fst h9) (by decide)
      · exact absurd (show "Power" = "Pieces" from congrArg Prod.fst h9) (by decide)
    rw [hrules]
    exact hfrv

/-- C8 witness: in "1500 watts max output" every Power-core match is followed by
" max", and indeed no Power entry is extracted. -/
theorem C8_witness :
    powerAllMax "1500 watts max output" = true ∧
    lookupSpec (extract_specs_from_text "1500 watts max output" 6) "Power" = none :=
  ⟨by decide, C8_power_negative_lookahead "1500 watts max output" 6 (by decide)⟩

/-- The quantifier loop preserves captures when its body does. -/
theorem repRun_caps {body : MSt → List MSt}
    (hb : ∀ st st2, st2 ∈ body st → st2.caps = st.caps) :
    ∀ (fuel lo : Nat) (hi : Option Nat) (lz : Bool) (st st2 : MSt),
      st2 ∈ repRun body fuel lo hi lz st → st2.caps = st.caps := by
  intro fuel
  induction fuel with
  | zero =>
    intro lo hi lz st st2 h
    simp [repRun] at h
  | succ f ih =>
    intro lo hi lz st st2 h
    have hcont : ∀ hi2,
        st2 ∈ (body st).flatMap (fun st3 =>
          if st3.pos == st.pos then []
          else repRun body f 0 hi2 lz st3) → st2.caps = st.caps := by
      intro hi2 hmem
      obtain ⟨st3, h3, hmem2⟩ := List.mem_flatMap.mp hmem
      by_cases hp : st3.pos == st.pos
      · rw [if_pos hp] at hmem2
        simp at hmem2
      · rw [if_neg hp] at hmem2
        rw [ih 0 hi2 lz st3 st2 hmem2, hb st st3 h3]
    cases lo with
    | zero =>
      cases hi with
      | none =>
        simp only [repRun] at h
        cases lz with
        | true =>
          rw [if_pos rfl] at h
          rcases List.mem_cons.mp h with h2 | h2
          · rw [h2]
          · exact hcont _ h2
        | false =>
          rw [if_neg (by simp)] at h
          rcases List.mem_append.mp h with h2 | h2
          · exact hcont _ h2
          · rw [List.mem_singleton.mp h2]
      | some m =>
        cases m with
        | zero =>
          simp only [repRun, List.mem_singleton] at h
          rw [h]
        | succ m2 =>
          simp only [repRun] at h
          cases lz with
          | true =>
            rw [if_pos rfl] at h
            rcases List.mem_cons.mp h with h2 | h2
            · rw [h2]
            · exact hcont _ h2
          | false =>
            rw [if_neg (by simp)] at h
            rcases List.mem_append.mp h with h2 | h2
            · exact hcont _ h2
            · rw [List.mem_singleton.mp h2]
    | succ lo2 =>
      simp only [repRun] at h
      obtain ⟨st3, h3, hmem2⟩ := List.mem_flatMap.mp h
      rw [ih lo2 _ lz st3 st2 hmem2, hb st st3 h3]

/-- A group-free pattern never changes the capture list. -/
theorem mrun_caps_of_groupFree {s : Chars} {ci : Bool} {fuel : Nat} {r : Re}
    (hgf : groupFree r = true) :
    ∀ {st st2 : MSt}, st2 ∈ mrun s ci fuel r st → st2.caps = st.caps := by
  induction r with
  | eps =>
    intro st st2 h
    simp only [mrun, List.mem_singleton] at h
    rw [h]
  | lit c =>
    intro st st2 h
    simp only [mrun] at h
    split at h
    · split at h
      · rw [List.mem_singleton.mp h]
      · simp at h
    · simp at h
  | cls cc =>
    intro st st2 h
    simp only [mrun] at h
    split at h
    · split at h
      · rw [List.mem_singleton.mp h]
      · simp at h
    · simp at h
  | seq a b iha ihb =>
    intro st st2 h
    simp only [groupFree, Bool.and_eq_true] at hgf
    rw [mrun_seq] at h
    obtain ⟨st1, h1, h2⟩ := List.mem_flatMap.mp h
    rw [ihb hgf.2 h2, iha hgf.1 h1]
  | alt a b iha ihb =>
    intro st st2 h
    simp only [groupFree, Bool.and_eq_true] at hgf
    simp only [mrun] at h
    rcases List.mem_append.mp h with h2 | h2
    · exact iha hgf.1 h2
    · exact ihb hgf.2 h2
  | rep r lo hi lz ihr =>
    intro st st2 h
    simp only [groupFree] at hgf
    simp only [mrun] at h
    exact repRun_caps (fun sta stb hmem => ihr hgf hmem) fuel lo hi lz st st2 h
  | group i r ihr =>
    simp [groupFree] at hgf
  | nla r ihr =>
    intro st st2 h
    simp only [mrun] at h
    split at h
    · rw [List.mem_singleton.mp h]
    · simp at h
  | wb =>
    intro st st2 h
    simp only [mrun] at h
    split at h
    · rw [List.mem_singleton.mp h]
    · simp at h
  | eos =>
    intro st st2 h
    simp only [mrun] at h
    split at h
    · rw [List.mem_singleton.mp h]
    · simp at h

/-- A successful search exhibits a member of the matcher's result list at the
found position, started with an empty capture list. -/
theorem searchFromAux_some_mem {s : Chars} {ci : Bool} {fuel : Nat} {re : Re} :
    ∀ (g i : Nat) {j : Nat} {st : MSt},
      searchFromAux s ci fuel re g i = some (j, st) →
      st ∈ mrun s ci fuel re ⟨j, []⟩ := by
  intro g
  induction g with
  | zero =>
    intro i j st h
    simp [searchFromAux] at h
  | succ g2 ih =>
    intro i j st h
    unfold searchFromAux at h
    by_cases hlen : s.length < i
    · rw [if_pos hlen] at h
      exact absurd h (by simp)
    · rw [if_neg hlen] at h
      cases hh : (mrun s ci fuel re ⟨i, []⟩).head? with
      | some st2 =>
        rw [hh] at h
        simp only [Option.some.injEq, Prod.mk.injEq] at h
        obtain ⟨hj, hst⟩ := h
        subst hj
        subst hst
        exact List.mem_of_mem_head? (by rw [hh]; rfl)
      | none =>
        rw [hh] at h
        exact ih (i + 1) h

/-- A slice of the subject occurs verbatim inside the subject. -/
theorem slice_infix (s : Chars) (a b : Nat) :
    ∃ pre post, s = pre ++ (sliceS s a b).data ++ post := by
  refine ⟨s.take a, (s.drop a).drop (b - a), ?_⟩
  show s = s.take a ++ (s.drop a).take (b - a) ++ (s.drop a).drop (b - a)
  rw [List.append_assoc, List.take_append_drop, List.take_append_drop]

/-- Any match of the Weight pattern records exactly one span for each of its two
groups, group 1 starting at the match start, on top of the initial captures. -/
theorem weightRe_match_caps {s : Chars} {fuel : Nat} {st0 st : MSt}
    (h : st ∈ mrun s true fuel weightRe st0) :
    ∃ e1 p2 e2, st.caps = (2, p2, e2) :: (1, st0.pos, e1) :: st0.caps := by
  have hw : weightRe = .seq (.group 1 numRe)
      (.seq (rstar rsp) (.seq (.group 2 weightUnitsRe) .wb)) := rfl
  rw [hw, mrun_seq] at h
  obtain ⟨st1, h1, h⟩ := List.mem_flatMap.mp h
  have hg : mrun s true fuel (.group 1 numRe) st0
      = (mrun s true fuel numRe st0).map
          (fun st2 => ⟨st2.pos, (1, st0.pos, st2.pos) :: st2.caps⟩) := rfl
  rw [hg] at h1
  obtain ⟨stN, hN, hst1⟩ := List.mem_map.mp h1
  have hNc : stN.caps = st0.caps := mrun_caps_of_groupFree (by rfl) hN
  rw [mrun_seq] at h
  obtain ⟨stS, hS, h⟩ := List.mem_flatMap.mp h
  have hSc : stS.caps = st1.caps := mrun_caps_of_groupFree (by rfl) hS
  rw [mrun_seq] at h
  obtain ⟨st2g, h2g, h⟩ := List.mem_flatMap.mp h
  have hg2 : mrun s true fuel (.group 2 weightUnitsRe) stS
      = (mrun s true fuel weightUnitsRe stS).map
          (fun st2 => ⟨st2.pos, (2, stS.pos, st2.pos) :: st2.caps⟩) := rfl
  rw [hg2] at h2g
  obtain ⟨stU, hU, hst2g⟩ := List.mem_map.mp h2g
  have hUc : stU.caps = stS.caps := mrun_caps_of_groupFree (by rfl) hU
  have hwb : st = st2g := by
    simp only [mrun] at h
    split at h
    · exact List.mem_singleton.mp h
    · simp at h
  have hcaps2 : st2g.caps = (2, stS.pos, stU.pos) :: stU.caps := by
    rw [← hst2g]
  have hcaps1 : st1.caps = (1, st0.pos, stN.pos) :: stN.caps := by
    rw [← hst1]
  refine ⟨stN.pos, stS.pos, stU.pos, ?_⟩
  rw [hwb, hcaps2, hUc, hSc, hcaps1, hNc]

/-- C7 (amended): whenever the Weight pattern matches the lowercased input, the
formatted value is `<number> <unit>` where both parts are taken verbatim from
the lowercased text (slices of it at the groups' recorded spans) - no unit
normalization happens, but since matching runs over `text.lower()`, an
uppercase source unit such as "KG" appears lowercased, not with the source's
original characters. -/
theorem C7_weight_unit_verbatim_lowercased (t : String) (m : RMatch)
    (h : research true weightRe (lowerCs t.data) = some m) :
    ∃ num unit : String,
      fmtGroups12 m = Except.ok (num ++ " " ++ unit) ∧
      (∃ pre post, lowerCs t.data = pre ++ num.data ++ post) ∧
      (∃ pre post, lowerCs t.data = pre ++ unit.data ++ post) := by
  unfold research at h
  obtain ⟨p, hsf, hm⟩ := Option.map_eq_some'.mp h
  obtain ⟨i, st⟩ := p
  have hmem : st ∈ mrun (lowerCs t.data) true (reFuel (lowerCs t.data)) weightRe
      ⟨i, []⟩ := by
    unfold searchFrom at hsf
    exact searchFromAux_some_mem _ _ hsf
  obtain ⟨e1, p2, e2, hcaps⟩ := weightRe_match_caps hmem
  subst hm
  refine ⟨sliceS (lowerCs t.data) i e1, sliceS (lowerCs t.data) p2 e2, ?_,
    slice_infix (lowerCs t.data) i e1, slice_infix (lowerCs t.data) p2 e2⟩
  simp only
  rw [hcaps]
  rfl

/-- C7 counterexample: a source text written with the uppercase unit "KG" yields
the Weight value "5 kg" - the unit's characters are not those written in the
source, because extraction matches against the lowercased text. -/
theorem C7_counterexample :
    lookupSpec (extract_specs_from_text "5 KG" 6) "Weight" = some "5 kg" ∧
    "5 kg" ≠ "5 KG" := by
  refine ⟨by decide, by decide⟩

/-- C7 witness: on "5 KG" the Weight pattern matches the lowercased text and the
theorem applies, the formatter output being built from slices of "5 kg". -/
theorem C7_witness :
    ∃ m, research true weightRe (lowerCs "5 KG".data) = some m ∧
      ∃ num unit : String,
        fmtGroups12 m = Except.ok (num ++ " " ++ unit) ∧
        (∃ pre post, lowerCs "5 KG".data = pre ++ num.data ++ post) ∧
        (∃ pre post, lowerCs "5 KG".data = pre ++ unit.data ++ post) :=
  ⟨_, rfl, C7_weight_unit_verbatim_lowercased "5 KG" _ rfl⟩
